import Mathlib

/-!
Shallow embedding of the footsteps repository: the guest replay
(movement validation and trail disclosure), the host batch worker, and
the gossip proof handler.  Coordinates are modelled as rationals.
-/

namespace Footsteps

/-- Guest `Position` component. -/
structure Pos where
  x : ℚ
  y : ℚ
deriving DecidableEq, Repr

/-- Guest `Velocity` component. -/
structure Velocity where
  x : ℚ
  y : ℚ
deriving DecidableEq, Repr

/-- The guest `movement` system applied to one entity: aborts (returns
`none`, modelling the guest panic) when either axis of the raw velocity
exceeds the 1.1 tolerance, otherwise normalizes the velocity to a unit
step by sign and applies it; a zero velocity leaves the position
untouched. -/
def movement (p : Pos) (v : Velocity) : Option Pos :=
  if |v.x| > 11/10 ∨ |v.y| > 11/10 then
    none
  else if v.x ≠ 0 ∨ v.y ≠ 0 then
    some ⟨p.x + (if v.x > 0 then 1 else if v.x < 0 then -1 else 0),
          p.y + (if v.y > 0 then 1 else if v.y < 0 then -1 else 0)⟩
  else
    some p

/-- The `KeyInput` enum shared by guest and host. -/
inductive KeyInput where
  | Up
  | Down
  | Left
  | Right
  | None
  | TestConstraint
deriving DecidableEq, Repr

/-- The raw velocity the guest main loop assigns for each key input. -/
def keyVelocity : KeyInput → Velocity
  | .Up => ⟨0, 1⟩
  | .Down => ⟨0, -1⟩
  | .Left => ⟨-1, 0⟩
  | .Right => ⟨1, 0⟩
  | .None => ⟨0, 0⟩
  | .TestConstraint => ⟨3, 0⟩

/-- The guest main loop after the starting position has been recorded:
for each key, set the velocity, run `movement` (propagating its abort),
and record the resulting position whenever the velocity was nonzero. -/
def runKeys (p : Pos) : List KeyInput → Option (List Pos)
  | [] => some []
  | k :: ks =>
    match movement p (keyVelocity k) with
    | Option.none => none
    | Option.some q =>
      match runKeys q ks with
      | Option.none => none
      | Option.some rest =>
        some (if (keyVelocity k).x ≠ 0 ∨ (keyVelocity k).y ≠ 0 then q :: rest else rest)

/-- `all_positions` of the guest: the starting position followed by the
position after every recorded step. -/
def allPositions (start : Pos) (keys : List KeyInput) : Option (List Pos) :=
  (runKeys start keys).map (start :: ·)

/-- The guest trail-disclosure selection over `all_positions`. -/
def selectTrail (all : List Pos) : List (ℚ × ℚ) :=
  if all.length ≤ 1 then
    []
  else if all.length ≤ 4 then
    (all.take (all.length - 1)).map (fun p => (p.x, p.y))
  else
    let middle := all.length / 2
    let si := middle / 2
    let ei := middle + si
    let si2 := max si 0
    let ei2 := min ei (all.length - 1)
    ((all.drop si2).take (ei2 - si2)).map (fun p => (p.x, p.y))

/-- The whole guest computation: replay the batch from the start
position and commit the disclosed trail; `none` models a proving
failure caused by the constraint-violation abort. -/
def guestMain (start : Pos) (keys : List KeyInput) : Option (List (ℚ × ℚ)) :=
  (allPositions start keys).map selectTrail

/-- An input violates the movement constraint when either axis of its
raw delta exceeds the 1.1 tolerance. -/
def violates (k : KeyInput) : Prop :=
  |(keyVelocity k).x| > 11/10 ∨ |(keyVelocity k).y| > 11/10

lemma movement_Up (p : Pos) : movement p (keyVelocity .Up) = some ⟨p.x, p.y + 1⟩ := by
  unfold movement keyVelocity
  norm_num

lemma movement_Down (p : Pos) : movement p (keyVelocity .Down) = some ⟨p.x, p.y + -1⟩ := by
  unfold movement keyVelocity
  norm_num

lemma movement_Left (p : Pos) : movement p (keyVelocity .Left) = some ⟨p.x + -1, p.y⟩ := by
  unfold movement keyVelocity
  norm_num

lemma movement_Right (p : Pos) : movement p (keyVelocity .Right) = some ⟨p.x + 1, p.y⟩ := by
  unfold movement keyVelocity
  norm_num

lemma movement_None (p : Pos) : movement p (keyVelocity .None) = some p := by
  unfold movement keyVelocity
  norm_num

lemma movement_Test (p : Pos) : movement p (keyVelocity .TestConstraint) = none := by
  unfold movement keyVelocity
  norm_num

lemma runKeys_cons_Up (p : Pos) (ks : List KeyInput) :
    runKeys p (.Up :: ks) = (runKeys ⟨p.x, p.y + 1⟩ ks).map (⟨p.x, p.y + 1⟩ :: ·) := by
  cases h : runKeys (⟨p.x, p.y + 1⟩ : Pos) ks <;>
    simp only [runKeys, movement_Up, h] <;> norm_num [keyVelocity]

lemma runKeys_cons_Down (p : Pos) (ks : List KeyInput) :
    runKeys p (.Down :: ks) = (runKeys ⟨p.x, p.y + -1⟩ ks).map (⟨p.x, p.y + -1⟩ :: ·) := by
  cases h : runKeys (⟨p.x, p.y + -1⟩ : Pos) ks <;>
    simp only [runKeys, movement_Down, h] <;> norm_num [keyVelocity]

lemma runKeys_cons_Left (p : Pos) (ks : List KeyInput) :
    runKeys p (.Left :: ks) = (runKeys ⟨p.x + -1, p.y⟩ ks).map (⟨p.x + -1, p.y⟩ :: ·) := by
  cases h : runKeys (⟨p.x + -1, p.y⟩ : Pos) ks <;>
    simp only [runKeys, movement_Left, h] <;> norm_num [keyVelocity]

lemma runKeys_cons_Right (p : Pos) (ks : List KeyInput) :
    runKeys p (.Right :: ks) = (runKeys ⟨p.x + 1, p.y⟩ ks).map (⟨p.x + 1, p.y⟩ :: ·) := by
  cases h : runKeys (⟨p.x + 1, p.y⟩ : Pos) ks <;>
    simp only [runKeys, movement_Right, h] <;> norm_num [keyVelocity]

lemma runKeys_cons_None (p : Pos) (ks : List KeyInput) :
    runKeys p (.None :: ks) = runKeys p ks := by
  cases h : runKeys p ks <;>
    simp only [runKeys, movement_None, h] <;> norm_num [keyVelocity]

lemma runKeys_cons_Test (p : Pos) (ks : List KeyInput) :
    runKeys p (.TestConstraint :: ks) = none := by
  simp only [runKeys, movement_Test]

lemma not_violates_Up : ¬ violates .Up := by
  unfold violates keyVelocity
  norm_num

lemma not_violates_Down : ¬ violates .Down := by
  unfold violates keyVelocity
  norm_num

lemma not_violates_Left : ¬ violates .Left := by
  unfold violates keyVelocity
  norm_num

lemma not_violates_Right : ¬ violates .Right := by
  unfold violates keyVelocity
  norm_num

lemma not_violates_None : ¬ violates .None := by
  unfold violates keyVelocity
  norm_num

lemma violates_Test : violates .TestConstraint := by
  unfold violates keyVelocity
  norm_num

/-- The replay aborts exactly when some input in the batch violates
the raw-magnitude constraint. -/
lemma runKeys_eq_none_iff (ks : List KeyInput) :
    ∀ p : Pos, runKeys p ks = none ↔ ∃ k ∈ ks, violates k := by
  induction ks with
  | nil => intro p; simp [runKeys]
  | cons k ks ih =>
    intro p
    cases k with
    | Up =>
      rw [runKeys_cons_Up]
      simp only [Option.map_eq_none', ih, List.mem_cons]
      constructor
      · rintro ⟨k, hk, hv⟩; exact ⟨k, Or.inr hk, hv⟩
      · rintro ⟨k, hk | hk, hv⟩
        · exact absurd (hk ▸ hv) not_violates_Up
        · exact ⟨k, hk, hv⟩
    | Down =>
      rw [runKeys_cons_Down]
      simp only [Option.map_eq_none', ih, List.mem_cons]
      constructor
      · rintro ⟨k, hk, hv⟩; exact ⟨k, Or.inr hk, hv⟩
      · rintro ⟨k, hk | hk, hv⟩
        · exact absurd (hk ▸ hv) not_violates_Down
        · exact ⟨k, hk, hv⟩
    | Left =>
      rw [runKeys_cons_Left]
      simp only [Option.map_eq_none', ih, List.mem_cons]
      constructor
      · rintro ⟨k, hk, hv⟩; exact ⟨k, Or.inr hk, hv⟩
      · rintro ⟨k, hk | hk, hv⟩
        · exact absurd (hk ▸ hv) not_violates_Left
        · exact ⟨k, hk, hv⟩
    | Right =>
      rw [runKeys_cons_Right]
      simp only [Option.map_eq_none', ih, List.mem_cons]
      constructor
      · rintro ⟨k, hk, hv⟩; exact ⟨k, Or.inr hk, hv⟩
      · rintro ⟨k, hk | hk, hv⟩
        · exact absurd (hk ▸ hv) not_violates_Right
        · exact ⟨k, hk, hv⟩
    | None =>
      rw [runKeys_cons_None]
      simp only [ih, List.mem_cons]
      constructor
      · rintro ⟨k, hk, hv⟩; exact ⟨k, Or.inr hk, hv⟩
      · rintro ⟨k, hk | hk, hv⟩
        · exact absurd (hk ▸ hv) not_violates_None
        · exact ⟨k, hk, hv⟩
    | TestConstraint =>
      rw [runKeys_cons_Test]
      exact iff_of_true rfl ⟨.TestConstraint, List.mem_cons_self _ _, violates_Test⟩

lemma guestMain_eq_none_iff (start : Pos) (keys : List KeyInput) :
    guestMain start keys = none ↔ runKeys start keys = none := by
  unfold guestMain allPositions
  cases h : runKeys start keys <;> simp [h]

/-- Transcribed from the spec wording of the disclosure policy: N ≤ 1
gives the empty trail, 2 ≤ N ≤ 4 gives all positions except the last,
and N > 4 gives the slice from mid/2 to mid + mid/2 with mid = N/2 and
both indices clamped to [0, N-1]. -/
def discloseSpec (all : List Pos) : List (ℚ × ℚ) :=
  if all.length ≤ 1 then
    []
  else if all.length ≤ 4 then
    (all.take (all.length - 1)).map (fun p => (p.x, p.y))
  else
    let mid := all.length / 2
    let s := min (max (mid / 2) 0) (all.length - 1)
    let e := min (max (mid + mid / 2) 0) (all.length - 1)
    ((all.drop s).take (e - s)).map (fun p => (p.x, p.y))

lemma selectTrail_eq_discloseSpec (all : List Pos) :
    selectTrail all = discloseSpec all := by
  unfold selectTrail discloseSpec
  by_cases h1 : all.length ≤ 1
  · simp [h1]
  · by_cases h4 : all.length ≤ 4
    · simp [h1, h4]
    · simp only [if_neg h1, if_neg h4]
      rw [show max (all.length / 2 / 2) 0 = all.length / 2 / 2 by omega,
        show max (all.length / 2 + all.length / 2 / 2) 0
            = all.length / 2 + all.length / 2 / 2 by omega,
        show min (all.length / 2 / 2) (all.length - 1) = all.length / 2 / 2 by omega]

/-- Transcribed from the spec wording: the sign of a raw axis delta. -/
def sgnQ (q : ℚ) : ℚ :=
  if q > 0 then 1 else if q < 0 then -1 else 0

/-- Transcribed from the spec wording: one normalized unit step (sign
only per axis) applied to the running position. -/
def specStep (p : Pos) (k : KeyInput) : Pos :=
  ⟨p.x + sgnQ (keyVelocity k).x, p.y + sgnQ (keyVelocity k).y⟩

/-- Transcribed from the spec wording: the positions after every input
that actually changed the position; no-op inputs add no entry. -/
def specSeq (p : Pos) : List KeyInput → List Pos
  | [] => []
  | k :: ks =>
    if specStep p k ≠ p then specStep p k :: specSeq (specStep p k) ks
    else specSeq (specStep p k) ks

/-- Two chronologically adjacent recorded positions differ by at most
one unit per axis, exactly one unit on each moved axis, and do differ. -/
def unitStepRel (a b : Pos) : Prop :=
  (|b.x - a.x| = 1 ∨ b.x = a.x) ∧ (|b.y - a.y| = 1 ∨ b.y = a.y) ∧ b ≠ a

lemma specStep_Up (p : Pos) : specStep p .Up = ⟨p.x, p.y + 1⟩ := by
  unfold specStep sgnQ keyVelocity
  norm_num

lemma specStep_Down (p : Pos) : specStep p .Down = ⟨p.x, p.y + -1⟩ := by
  unfold specStep sgnQ keyVelocity
  norm_num

lemma specStep_Left (p : Pos) : specStep p .Left = ⟨p.x + -1, p.y⟩ := by
  unfold specStep sgnQ keyVelocity
  norm_num

lemma specStep_Right (p : Pos) : specStep p .Right = ⟨p.x + 1, p.y⟩ := by
  unfold specStep sgnQ keyVelocity
  norm_num

lemma specStep_None (p : Pos) : specStep p .None = p := by
  unfold specStep sgnQ keyVelocity
  norm_num

lemma specStep_Test (p : Pos) : specStep p .TestConstraint = ⟨p.x + 1, p.y⟩ := by
  unfold specStep sgnQ keyVelocity
  norm_num

lemma ne_shift_y (p : Pos) (c : ℚ) (hc : c ≠ 0) : (⟨p.x, p.y + c⟩ : Pos) ≠ p := by
  intro hcontra
  have hy := congrArg Pos.y hcontra
  simp only at hy
  exact hc (by linarith)

lemma ne_shift_x (p : Pos) (c : ℚ) (hc : c ≠ 0) : (⟨p.x + c, p.y⟩ : Pos) ≠ p := by
  intro hcontra
  have hx := congrArg Pos.x hcontra
  simp only at hx
  exact hc (by linarith)

lemma runKeys_eq_specSeq (ks : List KeyInput) :
    ∀ (p : Pos) (l : List Pos), runKeys p ks = some l → l = specSeq p ks := by
  induction ks with
  | nil =>
    intro p l h
    simp only [runKeys, Option.some_inj] at h
    simp [specSeq, h.symm]
  | cons k ks ih =>
    intro p l h
    cases k with
    | Up =>
      rw [runKeys_cons_Up] at h
      obtain ⟨rest, hrest, hl⟩ := Option.map_eq_some'.mp h
      rw [specSeq, specStep_Up, if_pos (ne_shift_y p 1 one_ne_zero)]
      rw [← hl, ih _ rest hrest]
    | Down =>
      rw [runKeys_cons_Down] at h
      obtain ⟨rest, hrest, hl⟩ := Option.map_eq_some'.mp h
      rw [specSeq, specStep_Down, if_pos (ne_shift_y p (-1) (by norm_num))]
      rw [← hl, ih _ rest hrest]
    | Left =>
      rw [runKeys_cons_Left] at h
      obtain ⟨rest, hrest, hl⟩ := Option.map_eq_some'.mp h
      rw [specSeq, specStep_Left, if_pos (ne_shift_x p (-1) (by norm_num))]
      rw [← hl, ih _ rest hrest]
    | Right =>
      rw [runKeys_cons_Right] at h
      obtain ⟨rest, hrest, hl⟩ := Option.map_eq_some'.mp h
      rw [specSeq, specStep_Right, if_pos (ne_shift_x p 1 one_ne_zero)]
      rw [← hl, ih _ rest hrest]
    | None =>
      rw [runKeys_cons_None] at h
      rw [specSeq, specStep_None, if_neg (by simp)]
      exact ih p l h
    | TestConstraint =>
      rw [runKeys_cons_Test] at h
      exact absurd h (by simp)

lemma unitStep_specStep (p : Pos) (k : KeyInput) (h : specStep p k ≠ p) :
    unitStepRel p (specStep p k) := by
  cases k with
  | Up =>
    rw [specStep_Up]
    refine ⟨Or.inr rfl, Or.inl ?_, ne_shift_y p 1 one_ne_zero⟩
    simp
  | Down =>
    rw [specStep_Down]
    refine ⟨Or.inr rfl, Or.inl ?_, ne_shift_y p (-1) (by norm_num)⟩
    norm_num
  | Left =>
    rw [specStep_Left]
    refine ⟨Or.inl ?_, Or.inr rfl, ne_shift_x p (-1) (by norm_num)⟩
    norm_num
  | Right =>
    rw [specStep_Right]
    refine ⟨Or.inl ?_, Or.inr rfl, ne_shift_x p 1 one_ne_zero⟩
    simp
  | None => exact absurd (specStep_None p) h
  | TestConstraint =>
    rw [specStep_Test]
    refine ⟨Or.inl ?_, Or.inr rfl, ne_shift_x p 1 one_ne_zero⟩
    simp

lemma chain_specSeq (ks : List KeyInput) :
    ∀ p : Pos, List.Chain' unitStepRel (p :: specSeq p ks) := by
  induction ks with
  | nil => intro p; simp [specSeq]
  | cons k ks ih =>
    intro p
    by_cases hne : specStep p k = p
    · rw [specSeq, if_neg (by simpa using hne), hne]
      exact ih p
    · rw [specSeq, if_pos hne]
      exact List.chain'_cons.mpr ⟨unitStep_specStep p k hne, ih (specStep p k)⟩

/-! ## Host model -/

/-- The gossip message carrying a successful attestation: the origin
label and the journal of the receipt (the disclosed trail). -/
structure Publication where
  player_id : List Char
  trail : List (ℚ × ℚ)
deriving DecidableEq, Repr

/-- The shared `GameState` of the host. Times are modelled as natural
numbers of seconds; identity strings as character lists. -/
structure GameState where
  position_x : ℚ
  position_y : ℚ
  last_verified_x : ℚ
  last_verified_y : ℚ
  proof_start_x : ℚ
  proof_start_y : ℚ
  pending_keys : List KeyInput
  processing : Bool
  next_process_time : ℕ
  proof_status : String
  last_batch_size : ℕ
  verified_trail : List (ℚ × ℚ)
deriving DecidableEq, Repr

/-- `GameState::new`, created at time `now`. -/
def GameState.new (now : ℕ) : GameState where
  position_x := 0
  position_y := 0
  last_verified_x := 0
  last_verified_y := 0
  proof_start_x := 0
  proof_start_y := 0
  pending_keys := []
  processing := false
  next_process_time := now + 5
  proof_status := "Waiting for input"
  last_batch_size := 0
  verified_trail := []

/-- The key-string mapping of the websocket input handler. -/
def keyOfString : String → KeyInput
  | "up" => .Up
  | "down" => .Down
  | "left" => .Left
  | "right" => .Right
  | "test" => .TestConstraint
  | _ => .None

/-- The immediate speculative echo the input handler applies for each
key, before any validation. -/
def keyDelta : KeyInput → ℚ × ℚ
  | .Up => (0, 1)
  | .Down => (0, -1)
  | .Left => (-1, 0)
  | .Right => (1, 0)
  | .TestConstraint => (3, 3)
  | .None => (0, 0)

/-- The `key_press` branch of the websocket handler: enqueue the key
and move the speculative position by the echo delta. -/
def keyPress (k : KeyInput) (s : GameState) : GameState :=
  { s with
    pending_keys := s.pending_keys ++ [k]
    position_x := s.position_x + (keyDelta k).1
    position_y := s.position_y + (keyDelta k).2 }

/-- The snapshot phase of the batch worker, entered when the deadline
has fired with a non-empty queue and `processing = false`: it sets
`processing`, drains the whole queue as the batch, records its size,
captures the proof baseline, and eagerly advances the baseline to the
current speculative position.  Returns the new state, the drained
batch, and the captured baseline. -/
def batchStart (s : GameState) : GameState × List KeyInput × ℚ × ℚ :=
  ({ s with
      processing := true
      proof_status := "Generating proof..."
      pending_keys := []
      last_batch_size := s.pending_keys.length
      proof_start_x := s.position_x
      proof_start_y := s.position_y },
    s.pending_keys, s.proof_start_x, s.proof_start_y)

/-- The completion phase of the batch worker: run the guest replay
(the proving call) on the drained batch from the captured baseline.
On success, clear `processing`, record the success status, and emit
the attestation for the gossip network; on failure, clear
`processing`, record the failure status, revert the speculative
position to the last verified position, and emit nothing. -/
def batchFinish (name : List Char) (elapsed : String) (keys : List KeyInput)
    (px py : ℚ) (s : GameState) : GameState × Option Publication :=
  match guestMain ⟨px, py⟩ keys with
  | Option.some trail =>
    ({ s with
        processing := false
        proof_status := "Proof generated in " ++ elapsed ++ "s" },
      some ⟨name ++ "-player".data, trail⟩)
  | Option.none =>
    ({ s with
        processing := false
        proof_status := "Proof failed: Constraint violation"
        position_x := s.last_verified_x
        position_y := s.last_verified_y },
      none)

/-- One wake-up of the batch worker at time `now`: if the deadline has
not elapsed, nothing happens; otherwise the deadline is rearmed and,
only when the queue is non-empty and no batch is in flight, a batch is
started and finished. -/
def batchTick (name : List Char) (elapsed : String) (now : ℕ) (s : GameState) :
    GameState × Option Publication :=
  if s.next_process_time ≤ now then
    if s.pending_keys ≠ [] ∧ s.processing = false then
      batchFinish name elapsed
        ((batchStart { s with next_process_time := now + 5 }).2.1)
        ((batchStart { s with next_process_time := now + 5 }).2.2.1)
        ((batchStart { s with next_process_time := now + 5 }).2.2.2)
        ((batchStart { s with next_process_time := now + 5 }).1)
    else
      ({ s with next_process_time := now + 5 }, none)
  else
    (s, none)

/-- The `Proof` branch of the gossip event loop: the envelope is
ignored when the claimed origin label starts with this node's name;
otherwise the receipt is verified against the program identity and its
journal decoded, and only when both succeed is the verified trail
overwritten.  The verification and decoding outcomes of the external
proof capability are passed in as `verifyOk` and `decoded`.  The
returned flag records whether `verify` was invoked. -/
def handleProof (nodeName playerId : List Char) (verifyOk : Bool)
    (decoded : Option (List (ℚ × ℚ))) (s : GameState) : GameState × Bool :=
  if nodeName.isPrefixOf playerId then
    (s, false)
  else
    let s1 := { s with proof_status := "Verifying proof..." }
    if verifyOk = false then
      ({ s1 with proof_status := "Proof verification failed" }, true)
    else
      match decoded with
      | Option.none =>
        ({ s1 with proof_status := "Journal decoding failed" }, true)
      | Option.some trail =>
        ({ s1 with
            verified_trail := trail
            proof_status :=
              "Proof verified! Trail: " ++ toString trail.length ++ " positions" },
          true)

/-- One transition of the node: an input-handler key press, a batch
worker wake-up, or an inbound gossip proof envelope. -/
inductive NodeStep : GameState → GameState → Prop where
  | key (k : KeyInput) (s : GameState) : NodeStep s (keyPress k s)
  | batch (name : List Char) (elapsed : String) (now : ℕ) (s : GameState) :
      NodeStep s (batchTick name elapsed now s).1
  | proof (nodeName playerId : List Char) (verifyOk : Bool)
      (decoded : Option (List (ℚ × ℚ))) (s : GameState) :
      NodeStep s (handleProof nodeName playerId verifyOk decoded s).1

/-- A state is reachable when some interleaving of node transitions
produces it from a freshly created `GameState`. -/
def Reachable (s : GameState) : Prop :=
  ∃ n : ℕ, Relation.ReflTransGen NodeStep (GameState.new n) s

/-- Characterization of a failing batch wake-up: the queue was drained,
the baseline advanced, the speculative position reverted to the last
verified one, and nothing was emitted. -/
lemma batchTick_failure (name : List Char) (elapsed : String) (now : ℕ)
    (s : GameState) (hfire : s.next_process_time ≤ now) (hq : s.pending_keys ≠ [])
    (hp : s.processing = false)
    (hfail : guestMain ⟨s.proof_start_x, s.proof_start_y⟩ s.pending_keys = none) :
    batchTick name elapsed now s =
      ({ s with
          next_process_time := now + 5
          processing := false
          proof_status := "Proof failed: Constraint violation"
          position_x := s.last_verified_x
          position_y := s.last_verified_y
          proof_start_x := s.position_x
          proof_start_y := s.position_y
          pending_keys := []
          last_batch_size := s.pending_keys.length }, none) := by
  unfold batchTick
  rw [if_pos hfire, if_pos ⟨hq, hp⟩]
  unfold batchFinish
  simp only [batchStart]
  rw [hfail]

/-- Characterization of a successful batch wake-up: the queue was
drained, the baseline advanced, the success status recorded, the
verified trail left untouched, and the attestation emitted with the
disclosed trail as its journal. -/
lemma batchTick_success (name : List Char) (elapsed : String) (now : ℕ)
    (s : GameState) (trail : List (ℚ × ℚ)) (hfire : s.next_process_time ≤ now)
    (hq : s.pending_keys ≠ []) (hp : s.processing = false)
    (hok : guestMain ⟨s.proof_start_x, s.proof_start_y⟩ s.pending_keys = some trail) :
    batchTick name elapsed now s =
      ({ s with
          next_process_time := now + 5
          processing := false
          proof_status := "Proof generated in " ++ elapsed ++ "s"
          proof_start_x := s.position_x
          proof_start_y := s.position_y
          pending_keys := []
          last_batch_size := s.pending_keys.length },
        some ⟨name ++ "-player".data, trail⟩) := by
  unfold batchTick
  rw [if_pos hfire, if_pos ⟨hq, hp⟩]
  unfold batchFinish
  simp only [batchStart]
  rw [hok]

/-- A wake-up whose precondition fails (deadline fired but the queue is
empty or a batch is in flight) only rearms the deadline. -/
lemma batchTick_noop (name : List Char) (elapsed : String) (now : ℕ)
    (s : GameState) (hfire : s.next_process_time ≤ now)
    (h : s.processing = true ∨ s.pending_keys = []) :
    batchTick name elapsed now s = ({ s with next_process_time := now + 5 }, none) := by
  unfold batchTick
  rw [if_pos hfire, if_neg (by rcases h with h | h <;> simp [h])]

/-- No node transition writes the last-verified position fields. -/
lemma NodeStep_preserves_last_verified {s t : GameState} (h : NodeStep s t) :
    t.last_verified_x = s.last_verified_x ∧ t.last_verified_y = s.last_verified_y := by
  cases h with
  | key k s => simp [keyPress]
  | batch name elapsed now s =>
    by_cases hfire : s.next_process_time ≤ now
    · by_cases hc : s.pending_keys ≠ [] ∧ s.processing = false
      · cases hg : guestMain ⟨s.proof_start_x, s.proof_start_y⟩ s.pending_keys with
        | none => rw [batchTick_failure name elapsed now s hfire hc.1 hc.2 hg]; exact ⟨rfl, rfl⟩
        | some trail =>
          rw [batchTick_success name elapsed now s trail hfire hc.1 hc.2 hg]
          exact ⟨rfl, rfl⟩
      · unfold batchTick
        rw [if_pos hfire, if_neg hc]
        exact ⟨rfl, rfl⟩
    · unfold batchTick
      rw [if_neg hfire]
      exact ⟨rfl, rfl⟩
  | proof nodeName playerId verifyOk decoded s =>
    cases hpre : List.isPrefixOf nodeName playerId <;> cases verifyOk <;> cases decoded <;>
      simp [handleProof, hpre]

/-! ## Claims -/

/-- C1: For every starting position and input batch, the replay inside
`prove` fails with a constraint violation and produces no attestation
exactly when some input in the batch requests a raw step exceeding the
1.1 tolerance on either axis; in particular any batch containing the
`TestConstraint` input fails as a whole. -/
theorem C1_constraint_violation_iff (start : Pos) (keys : List KeyInput) :
    (guestMain start keys = none ↔
      ∃ k ∈ keys, |(keyVelocity k).x| > 11/10 ∨ |(keyVelocity k).y| > 11/10) ∧
    (KeyInput.TestConstraint ∈ keys → guestMain start keys = none) := by
  have hbase : guestMain start keys = none ↔ ∃ k ∈ keys, violates k :=
    (guestMain_eq_none_iff start keys).trans (runKeys_eq_none_iff keys start)
  exact ⟨hbase, fun hmem => hbase.mpr ⟨.TestConstraint, hmem, violates_Test⟩⟩

/-- Witness for C1 at a concrete batch containing `TestConstraint`. -/
theorem C1_constraint_violation_iff_witness :
    guestMain ⟨0, 0⟩ [KeyInput.TestConstraint] = none :=
  (C1_constraint_violation_iff ⟨0, 0⟩ [KeyInput.TestConstraint]).2
    (List.mem_cons_self _ _)

/-- C2: For every start and constraint-valid batch, the disclosed
trail follows the spec disclosure policy over the replayed sequence,
and the concrete example start (0,0), inputs [Up, Right, Up, Right]
disclosed exactly [(0,1), (1,1)]. -/
theorem C2_disclosure_policy :
    (∀ (start : Pos) (keys : List KeyInput) (all : List Pos),
        allPositions start keys = some all →
        guestMain start keys = some (discloseSpec all)) ∧
    guestMain ⟨0, 0⟩ [.Up, .Right, .Up, .Right] = some [(0, 1), (1, 1)] := by
  constructor
  · intro start keys all h
    show (allPositions start keys).map selectTrail = some (discloseSpec all)
    rw [h, Option.map_some', selectTrail_eq_discloseSpec]
  · have h : allPositions ⟨0, 0⟩ [.Up, .Right, .Up, .Right]
        = some [⟨0, 0⟩, ⟨0, 1⟩, ⟨1, 1⟩, ⟨1, 2⟩, ⟨2, 2⟩] := by
      simp [allPositions, runKeys, movement, keyVelocity]
      norm_num
    show (allPositions ⟨0, 0⟩ [.Up, .Right, .Up, .Right]).map selectTrail
        = some [(0, 1), (1, 1)]
    rw [h, Option.map_some']
    simp [selectTrail]

/-- Witness for C2 at the concrete example batch. -/
theorem C2_disclosure_policy_witness :
    guestMain ⟨0, 0⟩ [.Up, .Right, .Up, .Right]
      = some (discloseSpec [⟨0, 0⟩, ⟨0, 1⟩, ⟨1, 1⟩, ⟨1, 2⟩, ⟨2, 2⟩]) :=
  C2_disclosure_policy.1 ⟨0, 0⟩ [.Up, .Right, .Up, .Right]
    [⟨0, 0⟩, ⟨0, 1⟩, ⟨1, 1⟩, ⟨1, 2⟩, ⟨2, 2⟩]
    (by simp [allPositions, runKeys, movement, keyVelocity]; norm_num)

/-- C3: For every start and constraint-valid batch, the replayed
sequence is the start followed by the unit-normalized positions after
every input that changed the position (no-op inputs add no entry), and
chronologically adjacent recorded positions differ by a sign-only unit
step per moved axis. -/
theorem C3_unit_normalized_replay (start : Pos) (keys : List KeyInput)
    (all : List Pos) (h : allPositions start keys = some all) :
    all = start :: specSeq start keys ∧ List.Chain' unitStepRel all := by
  obtain ⟨l, hl, hfl⟩ := Option.map_eq_some'.mp h
  obtain rfl := runKeys_eq_specSeq keys start l hl
  exact ⟨hfl.symm, hfl ▸ chain_specSeq keys start⟩

/-- Witness for C3 at a concrete one-step batch. -/
theorem C3_unit_normalized_replay_witness :
    ([⟨0, 0⟩, ⟨0, 1⟩] : List Pos) = (⟨0, 0⟩ : Pos) :: specSeq ⟨0, 0⟩ [.Up] ∧
      List.Chain' unitStepRel ([⟨0, 0⟩, ⟨0, 1⟩] : List Pos) :=
  C3_unit_normalized_replay ⟨0, 0⟩ [.Up] [⟨0, 0⟩, ⟨0, 1⟩]
    (by simp [allPositions, runKeys, movement, keyVelocity]; norm_num)

/-- C4: Whenever prove fails for a batch, the worker clears
`processing`, sets the failure status string, reverts the speculative
position to the last verified position, and publishes nothing. -/
theorem C4_failure_reverts_and_publishes_nothing (name : List Char)
    (elapsed : String) (now : ℕ) (s : GameState)
    (hfire : s.next_process_time ≤ now) (hq : s.pending_keys ≠ [])
    (hp : s.processing = false)
    (hfail : guestMain ⟨s.proof_start_x, s.proof_start_y⟩ s.pending_keys = none) :
    (batchTick name elapsed now s).1.processing = false ∧
    (batchTick name elapsed now s).1.proof_status
      = "Proof failed: Constraint violation" ∧
    (batchTick name elapsed now s).1.position_x = s.last_verified_x ∧
    (batchTick name elapsed now s).1.position_y = s.last_verified_y ∧
    (batchTick name elapsed now s).2 = none := by
  rw [batchTick_failure name elapsed now s hfire hq hp hfail]
  exact ⟨rfl, rfl, rfl, rfl, rfl⟩

/-- The C4 scenario: a fresh node after the key presses
Up, Up, Right, Right, TestConstraint have been echoed and queued. -/
def scenarioState : GameState :=
  keyPress .TestConstraint (keyPress .Right (keyPress .Right
    (keyPress .Up (keyPress .Up (GameState.new 0)))))

/-- Witness for C4 at the scenario batch: the batch fails, the
speculative position reverts to the origin, and nothing is published. -/
theorem C4_failure_witness :
    (batchTick "node".data "1.00" 5 scenarioState).1.position_x = 0 ∧
    (batchTick "node".data "1.00" 5 scenarioState).1.position_y = 0 ∧
    (batchTick "node".data "1.00" 5 scenarioState).1.processing = false ∧
    (batchTick "node".data "1.00" 5 scenarioState).1.proof_status
      = "Proof failed: Constraint violation" ∧
    (batchTick "node".data "1.00" 5 scenarioState).2 = none := by
  have hpend : scenarioState.pending_keys
      = [.Up, .Up, .Right, .Right, .TestConstraint] := rfl
  have hfail : guestMain ⟨scenarioState.proof_start_x, scenarioState.proof_start_y⟩
      scenarioState.pending_keys = none := by
    rw [hpend, guestMain_eq_none_iff]
    simp [runKeys_cons_Up, runKeys_cons_Right, runKeys_cons_Test]
  have h := C4_failure_reverts_and_publishes_nothing "node".data "1.00" 5
    scenarioState (by decide) (by decide) rfl hfail
  exact ⟨h.2.2.1, h.2.2.2.1, h.1, h.2.1, h.2.2.2.2⟩

/-- C5 (amended): Whenever prove succeeds for a batch, the worker
clears `processing`, sets the success status, and publishes the
attestation whose journal is the batch's disclosed trail; the node's
own verified trail is left unchanged by the success path (the trail
field is only written when a remote proof is verified). -/
theorem C5_success_commits_and_publishes (name : List Char) (elapsed : String)
    (now : ℕ) (s : GameState) (trail : List (ℚ × ℚ))
    (hfire : s.next_process_time ≤ now) (hq : s.pending_keys ≠ [])
    (hp : s.processing = false)
    (hok : guestMain ⟨s.proof_start_x, s.proof_start_y⟩ s.pending_keys
        = some trail) :
    (batchTick name elapsed now s).1.processing = false ∧
    (batchTick name elapsed now s).1.proof_status
      = "Proof generated in " ++ elapsed ++ "s" ∧
    (batchTick name elapsed now s).2 = some ⟨name ++ "-player".data, trail⟩ ∧
    (batchTick name elapsed now s).1.verified_trail = s.verified_trail := by
  rw [batchTick_success name elapsed now s trail hfire hq hp hok]
  exact ⟨rfl, rfl, rfl, rfl⟩

/-- Counterexample to C5 as stated: on a successful batch the
attestation is published with disclosed trail [(0,0), (0,1)], yet the
node's verified trail stays empty instead of being replaced by it. -/
theorem C5_trail_not_replaced_cex :
    (batchTick "node".data "1.00" 5
        { GameState.new 0 with pending_keys := [.Up, .Right] }).2
      = some ⟨"node".data ++ "-player".data, [(0, 0), (0, 1)]⟩ ∧
    (batchTick "node".data "1.00" 5
        { GameState.new 0 with pending_keys := [.Up, .Right] }).1.verified_trail
      = [] ∧
    ([] : List (ℚ × ℚ)) ≠ [(0, 0), (0, 1)] := by
  have hg : guestMain ⟨0, 0⟩ [.Up, .Right] = some [(0, 0), (0, 1)] := by
    have h : allPositions ⟨0, 0⟩ [.Up, .Right]
        = some [⟨0, 0⟩, ⟨0, 1⟩, ⟨1, 1⟩] := by
      simp [allPositions, runKeys, movement, keyVelocity]
      norm_num
    show (allPositions ⟨0, 0⟩ [.Up, .Right]).map selectTrail = _
    rw [h, Option.map_some']
    simp [selectTrail]
  have h := batchTick_success "node".data "1.00" 5
    { GameState.new 0 with pending_keys := [.Up, .Right] } [(0, 0), (0, 1)]
    (le_refl _) (by decide) rfl hg
  rw [h]
  exact ⟨rfl, rfl, by simp⟩

/-- Witness for the amended C5 at a concrete valid batch. -/
theorem C5_success_witness :
    (batchTick "node".data "1.00" 5
        { GameState.new 0 with pending_keys := [.Up, .Right] }).1.processing
      = false ∧
    (batchTick "node".data "1.00" 5
        { GameState.new 0 with pending_keys := [.Up, .Right] }).1.proof_status
      = "Proof generated in " ++ "1.00" ++ "s" ∧
    (batchTick "node".data "1.00" 5
        { GameState.new 0 with pending_keys := [.Up, .Right] }).2
      = some ⟨"node".data ++ "-player".data, [(0, 0), (0, 1)]⟩ := by
  have hg : guestMain ⟨0, 0⟩ [.Up, .Right] = some [(0, 0), (0, 1)] := by
    have h : allPositions ⟨0, 0⟩ [.Up, .Right]
        = some [⟨0, 0⟩, ⟨0, 1⟩, ⟨1, 1⟩] := by
      simp [allPositions, runKeys, movement, keyVelocity]
      norm_num
    show (allPositions ⟨0, 0⟩ [.Up, .Right]).map selectTrail = _
    rw [h, Option.map_some']
    simp [selectTrail]
  have h := C5_success_commits_and_publishes "node".data "1.00" 5
    { GameState.new 0 with pending_keys := [.Up, .Right] } [(0, 0), (0, 1)]
    (le_refl _) (by decide) rfl hg
  exact ⟨h.1, h.2.1, h.2.2.1⟩

/-- C6: At most one batch is in flight: when the deadline fires with a
batch in flight or an empty queue, the wake-up only rearms the
deadline and drains nothing; otherwise the batch start sets
`processing`, drains the entire queue in one step, and records the
batch size as the number of drained inputs. -/
theorem C6_mutual_exclusion (name : List Char) (elapsed : String) (now : ℕ)
    (s : GameState) (hfire : s.next_process_time ≤ now) :
    ((s.processing = true ∨ s.pending_keys = []) →
      batchTick name elapsed now s
        = ({ s with next_process_time := now + 5 }, none)) ∧
    (s.processing = false → s.pending_keys ≠ [] →
      (batchStart { s with next_process_time := now + 5 }).1.processing = true ∧
      (batchStart { s with next_process_time := now + 5 }).1.pending_keys = [] ∧
      (batchStart { s with next_process_time := now + 5 }).2.1 = s.pending_keys ∧
      (batchStart { s with next_process_time := now + 5 }).1.last_batch_size
        = s.pending_keys.length ∧
      batchTick name elapsed now s
        = batchFinish name elapsed s.pending_keys s.proof_start_x s.proof_start_y
            (batchStart { s with next_process_time := now + 5 }).1) := by
  refine ⟨fun h => batchTick_noop name elapsed now s hfire h, fun hp hq => ?_⟩
  refine ⟨rfl, rfl, rfl, rfl, ?_⟩
  unfold batchTick
  rw [if_pos hfire, if_pos ⟨hq, hp⟩]
  rfl

/-- Witness for C6: a wake-up while a batch is in flight is a no-op
apart from rearming the deadline. -/
theorem C6_mutual_exclusion_witness :
    batchTick "node".data "1.00" 5 { GameState.new 0 with processing := true }
      = ({ GameState.new 0 with processing := true, next_process_time := 10 },
          none) :=
  (C6_mutual_exclusion "node".data "1.00" 5
    { GameState.new 0 with processing := true } (le_refl _)).1 (Or.inl rfl)

/-- C7 (amended): an inbound proof envelope is ignored exactly when its
claimed origin label starts with this node's name (which covers the
node's own attestations, labelled name ++ "-player"); for all other
envelopes `verify` is invoked before any trail change, and the
verified trail is overwritten only when verification and journal
decoding both succeed, each failure leaving the trail unchanged with a
failure status. -/
theorem C7_remote_proof_guard (nodeName playerId : List Char) (verifyOk : Bool)
    (decoded : Option (List (ℚ × ℚ))) (s : GameState) :
    (List.isPrefixOf nodeName playerId = true →
      handleProof nodeName playerId verifyOk decoded s = (s, false)) ∧
    List.isPrefixOf nodeName (nodeName ++ "-player".data) = true ∧
    (List.isPrefixOf nodeName playerId = false →
      (handleProof nodeName playerId verifyOk decoded s).2 = true ∧
      (verifyOk = false →
        (handleProof nodeName playerId verifyOk decoded s).1.verified_trail
            = s.verified_trail ∧
        (handleProof nodeName playerId verifyOk decoded s).1.proof_status
            = "Proof verification failed") ∧
      (verifyOk = true → decoded = none →
        (handleProof nodeName playerId verifyOk decoded s).1.verified_trail
            = s.verified_trail ∧
        (handleProof nodeName playerId verifyOk decoded s).1.proof_status
            = "Journal decoding failed") ∧
      (∀ t, verifyOk = true → decoded = some t →
        (handleProof nodeName playerId verifyOk decoded s).1.verified_trail
            = t)) := by
  refine ⟨fun hpre => by simp [handleProof, hpre],
    List.isPrefixOf_iff_prefix.mpr (List.prefix_append _ _),
    fun hpre => ?_⟩
  cases verifyOk <;> cases decoded <;>
    simp [handleProof, hpre]

/-- Counterexample to C7 as stated: at node "node", an envelope whose
claimed origin "node2-player" differs from this node's own label
"node-player" is nevertheless dropped without ever invoking `verify`,
because the origin check is by name prefix rather than by equality. -/
theorem C7_remote_proof_guard_cex :
    "node2-player".data ≠ "node".data ++ "-player".data ∧
    (handleProof "node".data "node2-player".data true (some [(5, 5)])
        (GameState.new 0)).2 = false ∧
    (handleProof "node".data "node2-player".data true (some [(5, 5)])
        (GameState.new 0)).1.verified_trail = [] := by
  have hpre : List.isPrefixOf "node".data "node2-player".data = true := by decide
  refine ⟨by decide, ?_, ?_⟩ <;> simp [handleProof, hpre, GameState.new]

/-- Witness for the amended C7 at a concrete remote envelope. -/
theorem C7_remote_proof_guard_witness :
    (handleProof "node".data "alice-player".data true (some [(1, 2)])
        (GameState.new 0)).2 = true ∧
    (handleProof "node".data "alice-player".data true (some [(1, 2)])
        (GameState.new 0)).1.verified_trail = [(1, 2)] := by
  have h := (C7_remote_proof_guard "node".data "alice-player".data true
    (some [(1, 2)]) (GameState.new 0)).2.2 (by decide)
  exact ⟨h.1, h.2.2.2 [(1, 2)] rfl rfl⟩

/-- C8: the last verified position fields are never written after
initialization, so in every reachable state they still hold the origin
and every revert-on-failure sets the speculative position back to the
origin. -/
theorem C8_last_verified_never_updated (s : GameState) (hs : Reachable s) :
    (s.last_verified_x = 0 ∧ s.last_verified_y = 0) ∧
    (∀ (name : List Char) (elapsed : String) (now : ℕ),
      s.next_process_time ≤ now → s.pending_keys ≠ [] → s.processing = false →
      guestMain ⟨s.proof_start_x, s.proof_start_y⟩ s.pending_keys = none →
      (batchTick name elapsed now s).1.position_x = 0 ∧
      (batchTick name elapsed now s).1.position_y = 0) := by
  obtain ⟨n, hr⟩ := hs
  have hinv : s.last_verified_x = 0 ∧ s.last_verified_y = 0 := by
    induction hr with
    | refl => exact ⟨rfl, rfl⟩
    | tail hab hbc ih =>
      obtain ⟨h1, h2⟩ := NodeStep_preserves_last_verified hbc
      exact ⟨h1.trans ih.1, h2.trans ih.2⟩
  refine ⟨hinv, fun name elapsed now hfire hq hp hfail => ?_⟩
  rw [batchTick_failure name elapsed now s hfire hq hp hfail]
  exact ⟨hinv.1, hinv.2⟩

/-- Witness for C8 at a reachable state with a failing batch. -/
theorem C8_last_verified_witness :
    (batchTick "node".data "1.00" 5
        (keyPress .TestConstraint (GameState.new 0))).1.position_x = 0 ∧
    (batchTick "node".data "1.00" 5
        (keyPress .TestConstraint (GameState.new 0))).1.position_y = 0 := by
  have hreach : Reachable (keyPress .TestConstraint (GameState.new 0)) :=
    ⟨0, Relation.ReflTransGen.single (NodeStep.key _ _)⟩
  have hfail : guestMain
      ⟨(keyPress .TestConstraint (GameState.new 0)).proof_start_x,
        (keyPress .TestConstraint (GameState.new 0)).proof_start_y⟩
      (keyPress .TestConstraint (GameState.new 0)).pending_keys = none := by
    have hpend : (keyPress .TestConstraint (GameState.new 0)).pending_keys
        = [.TestConstraint] := rfl
    rw [hpend, guestMain_eq_none_iff, runKeys_cons_Test]
  exact (C8_last_verified_never_updated _ hreach).2 "node".data "1.00" 5
    (by decide) (by decide) rfl hfail

/-- C9: the input handler's immediate speculative echo for the
TestConstraint ("test") key adds (3, 3) before any validation, whereas
the replay inside the proving capability maps the same input to a raw
delta of (3, 0); the two differ on the y axis. -/
theorem C9_speculative_echo_mismatch (s : GameState) :
    keyOfString "test" = KeyInput.TestConstraint ∧
    keyDelta .TestConstraint = (3, 3) ∧
    keyVelocity .TestConstraint = ⟨3, 0⟩ ∧
    (keyPress .TestConstraint s).position_x = s.position_x + 3 ∧
    (keyPress .TestConstraint s).position_y = s.position_y + 3 ∧
    (keyDelta .TestConstraint).2 ≠ (keyVelocity .TestConstraint).y := by
  refine ⟨rfl, rfl, rfl, rfl, rfl, ?_⟩
  norm_num [keyDelta, keyVelocity]

/-- C10: handling a remote proof envelope can change only the proof
status and the verified trail; every other field of the local state is
unchanged whether the envelope is ignored, fails verification, fails
decoding, or succeeds. -/
theorem C10_remote_proof_frame (nodeName playerId : List Char) (verifyOk : Bool)
    (decoded : Option (List (ℚ × ℚ))) (s : GameState) :
    (handleProof nodeName playerId verifyOk decoded s).1.position_x
        = s.position_x ∧
    (handleProof nodeName playerId verifyOk decoded s).1.position_y
        = s.position_y ∧
    (handleProof nodeName playerId verifyOk decoded s).1.last_verified_x
        = s.last_verified_x ∧
    (handleProof nodeName playerId verifyOk decoded s).1.last_verified_y
        = s.last_verified_y ∧
    (handleProof nodeName playerId verifyOk decoded s).1.proof_start_x
        = s.proof_start_x ∧
    (handleProof nodeName playerId verifyOk decoded s).1.proof_start_y
        = s.proof_start_y ∧
    (handleProof nodeName playerId verifyOk decoded s).1.pending_keys
        = s.pending_keys ∧
    (handleProof nodeName playerId verifyOk decoded s).1.processing
        = s.processing ∧
    (handleProof nodeName playerId verifyOk decoded s).1.next_process_time
        = s.next_process_time ∧
    (handleProof nodeName playerId verifyOk decoded s).1.last_batch_size
        = s.last_batch_size := by
  cases hpre : List.isPrefixOf nodeName playerId <;> cases verifyOk <;>
    cases decoded <;> simp [handleProof, hpre]

end Footsteps
